import Mathlib

/-!
Shallow embedding of the collaborative whiteboard client
(`WhiteboardCanvas`): board data model, geometry/transform, pen-stroke
lifecycle, eraser segmentation, history manager and the inbound socket
handlers, together with proofs of the specified properties.

Numbers are modelled as rationals (the source uses JS doubles; all the
arithmetic involved is exact field arithmetic, and comparisons against
`Math.sqrt` values are rewritten in equivalent square-free form, justified
against `Real.sqrt` in the lemmas below).
-/

namespace Whiteboard

/-- Structure `LineData` from the source: a stroke's flat point list (x0,y0,x1,y1,…),
tool identifier, color and line width. -/
structure LineData where
  points : List ℚ
  tool : String
  color : String
  lineWidth : ℚ
deriving Repr, DecidableEq

/-- Structure `ShapeData` from the source: tagged by a `type` string ("rectangle" or
"circle"), anchor (x,y) and signed width/height. -/
structure ShapeData where
  type : String
  x : ℚ
  y : ℚ
  width : ℚ
  height : ℚ
  tool : String
deriving Repr, DecidableEq

/-- Structure `Viewport` from the source: screen-space translation and zoom factor. -/
structure Viewport where
  x : ℚ
  y : ℚ
  scale : ℚ
deriving Repr, DecidableEq

/-- One history entry: `{ lines, shapes }` board snapshot. -/
structure Snapshot where
  lines : List LineData
  shapes : List ShapeData
deriving Repr, DecidableEq

/-- Outbound socket events emitted by the handlers modelled here. -/
inductive Event where
  | draw (roomId : String) (strokeData : LineData) : Event
  | drawShape (roomId : String) (strokeData : ShapeData) : Event
  | updateBoard (roomId : String) (lines : List LineData) (shapes : List ShapeData) : Event
  | clearBoard (roomId : String) : Event
deriving Repr, DecidableEq

/-- The component state of `WhiteboardCanvas` relevant to the verified
operations: the live collections, the history log with its index, the
viewport, and the room id used in emitted events. -/
structure ClientState where
  lines : List LineData
  shapes : List ShapeData
  history : List Snapshot
  historyIndex : ℕ
  viewport : Viewport
  roomId : String
deriving Repr, DecidableEq

/-- Source `screenToWorld(screenX, screenY)`. -/
def screenToWorld (v : Viewport) (screenX screenY : ℚ) : ℚ × ℚ :=
  ((screenX - v.x) / v.scale, (screenY - v.y) / v.scale)

/-- Source `worldToScreen(worldX, worldY)`. -/
def worldToScreen (v : Viewport) (worldX worldY : ℚ) : ℚ × ℚ :=
  (worldX * v.scale + v.x, worldY * v.scale + v.y)

/-- Source `handleWheel`, abstracted over the wheel delta sign and
the pointer position relative to the canvas: `delta = deltaY > 0 ? 0.9 : 1.1`,
`newScale = max(0.1, min(5, scale * delta))`, and the translation is
recomputed through `scaleRatio = newScale / scale`. -/
def handleWheel (deltaY mouseX mouseY : ℚ) (v : Viewport) : Viewport :=
  let zoomFactor : ℚ := 1/10
  let delta := if 0 < deltaY then 1 - zoomFactor else 1 + zoomFactor
  let newScale := max (1/10) (min 5 (v.scale * delta))
  let scaleRatio := newScale / v.scale
  { x := mouseX - (mouseX - v.x) * scaleRatio
    y := mouseY - (mouseY - v.y) * scaleRatio
    scale := newScale }

/-- Source `resetView`. -/
def resetView : Viewport := { x := 0, y := 0, scale := 1 }

/-- C8: for every viewport with positive scale and every world point `p`,
`screenToWorld (worldToScreen p) = p` (exactly, in the rational model). -/
theorem screenToWorld_worldToScreen_roundtrip
    (v : Viewport) (px py : ℚ) (hscale : 0 < v.scale) :
    screenToWorld v (worldToScreen v px py).1 (worldToScreen v px py).2 = (px, py) := by
  have hne : v.scale ≠ 0 := ne_of_gt hscale
  simp [screenToWorld, worldToScreen]
  constructor <;> field_simp

/-- Witness for C8 at a concrete viewport and point. -/
theorem screenToWorld_worldToScreen_roundtrip_witness :
    (0 : ℚ) < (2 : ℚ) ∧
      screenToWorld ⟨5, -3, 2⟩ (worldToScreen ⟨5, -3, 2⟩ 7 11).1
        (worldToScreen ⟨5, -3, 2⟩ 7 11).2 = (7, 11) :=
  ⟨by norm_num, screenToWorld_worldToScreen_roundtrip ⟨5, -3, 2⟩ 7 11 (by norm_num)⟩

/-- Source `addToHistory(newLines, newShapes)`: truncate the log to
`[0, historyIndex]` (`history.slice(0, historyIndex + 1)`), append the new
snapshot, and point the index at the new last slot. It touches only the
history log and index, not the live collections. -/
def addToHistory (st : ClientState) (newLines : List LineData)
    (newShapes : List ShapeData) : ClientState :=
  let newHistory := st.history.take (st.historyIndex + 1) ++ [⟨newLines, newShapes⟩]
  { st with history := newHistory, historyIndex := newHistory.length - 1 }

/-- Source `undo()`: guarded by `historyIndex > 0`; restores the
previous snapshot, decrements the index and emits a full-snapshot
`updateBoard` event. (The in-range lookup `history[newIndex]` is modelled
with `getD`; under the index invariant it is always in range.) -/
def undo (st : ClientState) : ClientState × List Event :=
  if 0 < st.historyIndex then
    let newIndex := st.historyIndex - 1
    let previousState := st.history.getD newIndex ⟨[], []⟩
    ({ st with lines := previousState.lines, shapes := previousState.shapes,
               historyIndex := newIndex },
     [Event.updateBoard st.roomId previousState.lines previousState.shapes])
  else (st, [])

/-- Source `redo()`: guarded by `historyIndex < history.length - 1`;
restores the next snapshot, increments the index and emits `updateBoard`. -/
def redo (st : ClientState) : ClientState × List Event :=
  if st.historyIndex < st.history.length - 1 then
    let newIndex := st.historyIndex + 1
    let nextState := st.history.getD newIndex ⟨[], []⟩
    ({ st with lines := nextState.lines, shapes := nextState.shapes,
               historyIndex := newIndex },
     [Event.updateBoard st.roomId nextState.lines nextState.shapes])
  else (st, [])

/-- Source `clearCanvas()`. -/
def clearCanvas (st : ClientState) : ClientState × List Event :=
  ({ st with lines := [], shapes := [],
             history := [⟨[], []⟩], historyIndex := 0 },
   [Event.clearBoard st.roomId])

/-- The payload variants accepted by the inbound `draw` handler after the
envelope is unwrapped: strokes carry a `points` field (always truthy in JS,
even when empty), shapes a `type` field. -/
inductive DrawPayload where
  | line (ld : LineData) : DrawPayload
  | shape (sd : ShapeData) : DrawPayload
deriving Repr, DecidableEq

/-- The `socket.on("draw")` handler from the source: a payload with a
`points` field is appended to `lines`; a payload whose `type` is
`"rectangle"` or `"circle"` is appended to `shapes`; anything else is
ignored. The handler never touches the history log or index. -/
def onDraw (p : DrawPayload) (st : ClientState) : ClientState :=
  match p with
  | .line ld => { st with lines := st.lines ++ [ld] }
  | .shape sd =>
      if sd.type = "rectangle" ∨ sd.type = "circle" then
        { st with shapes := st.shapes ++ [sd] }
      else st

/-- The `socket.on("updateBoard")` handler from the source: wholesale
replacement of the live `lines`/`shapes` collections; history untouched. -/
def onUpdateBoard (newLines : List LineData) (newShapes : List ShapeData)
    (st : ClientState) : ClientState :=
  { st with lines := newLines, shapes := newShapes }

/-- The `socket.on("clearBoard")` handler from the source. -/
def onClearBoard (st : ClientState) : ClientState :=
  { st with lines := [], shapes := [], history := [⟨[], []⟩], historyIndex := 0 }

/-- Source `handleMouseDown` with the pen tool selected: seed a fresh one-point
stroke at the pointer's world position. -/
def penMouseDown (px py : ℚ) (selectedColor : String) (selectedLineWidth : ℚ)
    (st : ClientState) : ClientState :=
  { st with lines := st.lines ++ [⟨[px, py], "pen", selectedColor, selectedLineWidth⟩] }

/-- Source `handleMouseMove` with the pen tool selected: append the pointer's world
position to the last (active) stroke, if any. -/
def penMouseMove (px py : ℚ) (st : ClientState) : ClientState :=
  match st.lines.getLast? with
  | none => st
  | some lastLine =>
      { st with lines := st.lines.dropLast
          ++ [{ lastLine with points := lastLine.points ++ [px, py] }] }

/-- Source `handleMouseUp` with the pen tool selected: if the last stroke exists and
has a non-empty point list (`lastStroke.points.length > 0`), emit it as a
`draw` event and push the board to history; otherwise do nothing. -/
def penMouseUp (st : ClientState) : ClientState × List Event :=
  match st.lines.getLast? with
  | some lastStroke =>
      if 0 < lastStroke.points.length then
        (addToHistory st st.lines st.shapes, [Event.draw st.roomId lastStroke])
      else (st, [])
  | none => (st, [])

/-- Pointer-anchoring helper: recomputing the translation through the scale
ratio preserves the world point under the pointer. -/
theorem wheel_anchor_aux (mx my vx vy s ns : ℚ) (hs : s ≠ 0) (hns : ns ≠ 0) :
    screenToWorld ⟨mx - (mx - vx) * (ns / s), my - (my - vy) * (ns / s), ns⟩ mx my
      = screenToWorld ⟨vx, vy, s⟩ mx my := by
  simp only [screenToWorld, Prod.mk.injEq]
  constructor <;> field_simp <;> ring

/-- C7: a wheel-zoom clamps the new scale into `[0.1, 5]`, the new scale is
exactly `clamp (scale * (1 ± 0.1)) 0.1 5`, and (for positive initial scale)
the world point under the pointer is unchanged by the zoom. -/
theorem handleWheel_clamps_and_anchors
    (deltaY mouseX mouseY : ℚ) (v : Viewport) (hscale : 0 < v.scale) :
    (handleWheel deltaY mouseX mouseY v).scale
        = max (1/10) (min 5 (v.scale * (if 0 < deltaY then 1 - 1/10 else 1 + 1/10)))
      ∧ (1/10 : ℚ) ≤ (handleWheel deltaY mouseX mouseY v).scale
      ∧ (handleWheel deltaY mouseX mouseY v).scale ≤ 5
      ∧ screenToWorld (handleWheel deltaY mouseX mouseY v) mouseX mouseY
          = screenToWorld v mouseX mouseY := by
  have hne : v.scale ≠ 0 := ne_of_gt hscale
  set d : ℚ := if 0 < deltaY then 1 - 1/10 else 1 + 1/10 with hd
  set ns : ℚ := max (1/10) (min 5 (v.scale * d)) with hnsdef
  have hEq : handleWheel deltaY mouseX mouseY v
      = { x := mouseX - (mouseX - v.x) * (ns / v.scale)
          y := mouseY - (mouseY - v.y) * (ns / v.scale)
          scale := ns } := rfl
  have hns0 : ns ≠ 0 :=
    ne_of_gt (lt_of_lt_of_le (by norm_num) (le_max_left _ _))
  refine ⟨by rw [hEq], ?_, ?_, ?_⟩
  · rw [hEq]
    exact le_max_left _ _
  · rw [hEq]
    exact max_le (by norm_num) (min_le_left _ _)
  · rw [hEq]
    exact wheel_anchor_aux mouseX mouseY v.x v.y v.scale ns hne hns0

/-- Witness for C7 at a concrete wheel event. -/
theorem handleWheel_clamps_and_anchors_witness :
    (0 : ℚ) < (2 : ℚ) ∧
      ((handleWheel 1 100 50 ⟨4, 8, 2⟩).scale
          = max (1/10) (min 5 (2 * (if (0:ℚ) < 1 then 1 - 1/10 else 1 + 1/10)))
        ∧ (1/10 : ℚ) ≤ (handleWheel 1 100 50 ⟨4, 8, 2⟩).scale
        ∧ (handleWheel 1 100 50 ⟨4, 8, 2⟩).scale ≤ 5
        ∧ screenToWorld (handleWheel 1 100 50 ⟨4, 8, 2⟩) 100 50
            = screenToWorld ⟨4, 8, 2⟩ 100 50) :=
  ⟨by norm_num, handleWheel_clamps_and_anchors 1 100 50 ⟨4, 8, 2⟩ (by norm_num)⟩

/-- Point-in-eraser test from `eraseAtPoint`: the source computes
`Math.sqrt((pointX - x)² + (pointY - y)²) <= eraserRadius`; for the
nonnegative radius the source always passes this equals the square-free
comparison used here (see `sqrt_le_iff_sq_le` below). -/
def pointInEraser (x y r px py : ℚ) : Bool :=
  decide ((px - x) ^ 2 + (py - y) ^ 2 ≤ r ^ 2)

/-- The per-stroke eraser walk from `eraseAtPoint`: consume the flat point
list two numbers at a time, carrying the `isInEraser` flag and the open
`currentSegment`; emit closed segments on transitions, flush the trailing
segment, and report whether any point was inside (the stroke's contribution
to `hasChanges`). A dangling odd number (never produced by the program,
whose point lists always have even length) is appended to the open segment
and flushed. -/
def eraseWalk (x y r : ℚ) : List ℚ → Bool → List ℚ → List (List ℚ) × Bool
  | px :: py :: rest, wasIn, cur =>
    let isIn := pointInEraser x y r px py
    if isIn then
      if !wasIn && !cur.isEmpty then
        let res := eraseWalk x y r rest true []
        (cur :: res.1, true)
      else
        let res := eraseWalk x y r rest true cur
        (res.1, true)
    else
      if wasIn && !cur.isEmpty then
        let res := eraseWalk x y r rest false [px, py]
        (cur :: res.1, res.2)
      else
        eraseWalk x y r rest false (cur ++ [px, py])
  | [px], _, cur => ([cur ++ [px]], false)
  | [], _, cur => (if cur.isEmpty then [] else [cur], false)

/-- The per-line part of `eraseAtPoint`: a line with fewer than 4 numbers is
kept whole (and contributes no change); otherwise the walk's segments with
at least 4 numbers survive as fragments copying the original
tool/color/width. -/
def eraseLine (x y r : ℚ) (line : LineData) : List LineData × Bool :=
  if line.points.length < 4 then ([line], false)
  else
    let walk := eraseWalk x y r line.points false []
    ((walk.1.filter (fun s => 4 ≤ s.length)).map
        (fun s => ⟨s, line.tool, line.color, line.lineWidth⟩),
     walk.2)

/-- The shape test from `eraseAtPoint`. A rectangle is erased when `(x,y)`
lies in the unnormalized bounds `[x - r, x + width + r] × [y - r, y + height
+ r]` (signed width/height are not normalized by the source). For a circle
the source compares `Math.sqrt((sx-x)² + (sy-y)²) <= Math.sqrt(w² + h²) +
r`; with `D` the squared center distance and `S` the squared effective
radius this is encoded square-free as `D - S - r² ≤ 0 ∨ (D - S - r²)² ≤
4·r²·S`, equivalent for `r ≥ 0` (see `circle_condition_iff_sqrt` below).
Shapes with any other `type` tag are never erased. -/
def shapeErased (x y r : ℚ) (s : ShapeData) : Bool :=
  if s.type = "rectangle" then
    decide (s.x - r ≤ x ∧ x ≤ s.x + s.width + r
      ∧ s.y - r ≤ y ∧ y ≤ s.y + s.height + r)
  else if s.type = "circle" then
    let D := (s.x - x) ^ 2 + (s.y - y) ^ 2
    let S := s.width ^ 2 + s.height ^ 2
    decide (D - S - r ^ 2 ≤ 0 ∨ (D - S - r ^ 2) ^ 2 ≤ 4 * r ^ 2 * S)
  else
    false

/-- The shape pass of `eraseAtPoint`: keep exactly the shapes the contact
circle does not touch (removal is whole-shape; survivors are unmodified). -/
def eraseShapes (x y r : ℚ) (shapes : List ShapeData) : List ShapeData :=
  shapes.filter (fun s => !shapeErased x y r s)

/-- Source `eraseAtPoint(x, y)`: world-space eraser radius
`12 / viewport.scale`; every line is segmented, every shape tested; if
anything changed the collections are replaced, a history entry is pushed and
a full-snapshot `updateBoard` event is emitted, otherwise nothing happens. -/
def eraseAtPoint (x y : ℚ) (st : ClientState) : ClientState × List Event :=
  let eraserRadius := 12 / st.viewport.scale
  let lineResults := st.lines.map (eraseLine x y eraserRadius)
  let newLines := (lineResults.map Prod.fst).flatten
  let newShapes := eraseShapes x y eraserRadius st.shapes
  let hasChanges := lineResults.any Prod.snd || st.shapes.any (shapeErased x y eraserRadius)
  if hasChanges then
    (addToHistory { st with lines := newLines, shapes := newShapes } newLines newShapes,
     [Event.updateBoard st.roomId newLines newShapes])
  else (st, [])

/-- Consecutive (x,y) pairs of a flat point list, as walked by the eraser
loop; a dangling odd number is not a point. -/
def pairUp : List ℚ → List (ℚ × ℚ)
  | px :: py :: rest => (px, py) :: pairUp rest
  | [_] => []
  | [] => []

/-- A client state as freshly mounted: empty board, history holding one
empty snapshot at index 0, identity viewport. -/
def emptyBoardState : ClientState :=
  { lines := [], shapes := [], history := [⟨[], []⟩], historyIndex := 0,
    viewport := ⟨0, 0, 1⟩, roomId := "room" }

/-- A state whose history has two snapshots with the index at the last one,
used to instantiate the history-manager theorem. -/
def twoSnapshotState : ClientState :=
  { lines := [], shapes := [], history := [⟨[], []⟩, ⟨[], []⟩], historyIndex := 1,
    viewport := ⟨0, 0, 1⟩, roomId := "room" }

/-- C3: `undo` at index 0 and `redo` at the last index are no-ops (state and
events); `addToHistory` truncates the log to `[0, historyIndex]` and appends,
leaving the index at the new last slot; and each of the three operations
keeps the index within `[0, length-1]`. -/
theorem history_manager_ok (st : ClientState) (ls : List LineData)
    (ss : List ShapeData) (hinv : st.historyIndex < st.history.length) :
    (st.historyIndex = 0 → undo st = (st, []))
    ∧ (st.historyIndex = st.history.length - 1 → redo st = (st, []))
    ∧ (addToHistory st ls ss).history
        = st.history.take (st.historyIndex + 1) ++ [⟨ls, ss⟩]
    ∧ (addToHistory st ls ss).historyIndex
        = (addToHistory st ls ss).history.length - 1
    ∧ (addToHistory st ls ss).historyIndex < (addToHistory st ls ss).history.length
    ∧ (undo st).1.historyIndex < (undo st).1.history.length
    ∧ (redo st).1.historyIndex < (redo st).1.history.length := by
  refine ⟨?_, ?_, rfl, rfl, ?_, ?_, ?_⟩
  · intro h0
    simp [undo, h0]
  · intro hlast
    have : ¬ st.historyIndex < st.history.length - 1 := by omega
    simp [redo, this]
  · simp [addToHistory]
  · by_cases h : 0 < st.historyIndex
    · simp only [undo, if_pos h]
      exact lt_of_le_of_lt (Nat.sub_le _ _) hinv
    · simpa [undo, h] using hinv
  · by_cases h : st.historyIndex < st.history.length - 1
    · simp only [redo, if_pos h]
      omega
    · simpa [redo, h] using hinv

/-- Witness for C3 at a two-snapshot history with the index at the last slot. -/
theorem history_manager_ok_witness :
    twoSnapshotState.historyIndex < twoSnapshotState.history.length
    ∧ ((twoSnapshotState.historyIndex = 0 → undo twoSnapshotState = (twoSnapshotState, []))
      ∧ (twoSnapshotState.historyIndex = twoSnapshotState.history.length - 1 →
          redo twoSnapshotState = (twoSnapshotState, []))
      ∧ (addToHistory twoSnapshotState [] []).history
          = twoSnapshotState.history.take (twoSnapshotState.historyIndex + 1) ++ [⟨[], []⟩]
      ∧ (addToHistory twoSnapshotState [] []).historyIndex
          = (addToHistory twoSnapshotState [] []).history.length - 1
      ∧ (addToHistory twoSnapshotState [] []).historyIndex
          < (addToHistory twoSnapshotState [] []).history.length
      ∧ (undo twoSnapshotState).1.historyIndex < (undo twoSnapshotState).1.history.length
      ∧ (redo twoSnapshotState).1.historyIndex < (redo twoSnapshotState).1.history.length) :=
  ⟨by decide, history_manager_ok twoSnapshotState [] [] (by decide)⟩

/-- C10: applying an inbound `updateBoard` replaces the strokes and shapes
wholesale with the payload and leaves the history log and index unchanged. -/
theorem onUpdateBoard_replaces_board_preserves_history
    (newLines : List LineData) (newShapes : List ShapeData) (st : ClientState) :
    (onUpdateBoard newLines newShapes st).lines = newLines
    ∧ (onUpdateBoard newLines newShapes st).shapes = newShapes
    ∧ (onUpdateBoard newLines newShapes st).history = st.history
    ∧ (onUpdateBoard newLines newShapes st).historyIndex = st.historyIndex :=
  ⟨rfl, rfl, rfl, rfl⟩

/-- The stroke of the C2 end-to-end scenario. -/
def c2Stroke : LineData := ⟨[0, 0, 5, 5], "pen", "#000000", 2⟩

/-- Counterexample to C2: receiving the scenario's `draw` event on a fresh
client appends the stroke but leaves the history at length 1, not 2 — the
inbound `draw` handler never pushes a history entry. -/
theorem onDraw_history_counterexample :
    (onDraw (.line c2Stroke) emptyBoardState).lines = [c2Stroke]
    ∧ (onDraw (.line c2Stroke) emptyBoardState).history.length = 1
    ∧ ¬ (onDraw (.line c2Stroke) emptyBoardState).history.length = 2 := by
  decide

/-- C2 (amended): an inbound `draw` event carrying a stroke appends exactly
that stroke to the board's lines and leaves shapes, the history log and the
history index unchanged. -/
theorem onDraw_line_appends_stroke (ld : LineData) (st : ClientState) :
    (onDraw (.line ld) st).lines = st.lines ++ [ld]
    ∧ (onDraw (.line ld) st).shapes = st.shapes
    ∧ (onDraw (.line ld) st).history = st.history
    ∧ (onDraw (.line ld) st).historyIndex = st.historyIndex :=
  ⟨rfl, rfl, rfl, rfl⟩

/-- Counterexample to C4: pen-down at (3,4) immediately followed by pen-up
commits a one-point stroke (2 numbers < 4): it is broadcast on the wire and
pushed to history, so a stroke with fewer than 2 points can be persisted. -/
theorem one_point_stroke_persisted_counterexample :
    (penMouseUp (penMouseDown 3 4 "#000000" 2 emptyBoardState)).2
        = [Event.draw "room" ⟨[3, 4], "pen", "#000000", 2⟩]
    ∧ (penMouseUp (penMouseDown 3 4 "#000000" 2 emptyBoardState)).1.history
        = [⟨[], []⟩, ⟨[⟨[3, 4], "pen", "#000000", 2⟩], []⟩]
    ∧ (⟨[3, 4], "pen", "#000000", 2⟩ : LineData).points.length < 4 := by
  decide

/-- C4 (amended): every stroke committed by pen mouse-up has a non-empty
point list (at least 1 point); a stroke with no points is never emitted. -/
theorem committed_stroke_nonempty (st : ClientState) (r : String) (ld : LineData)
    (hmem : Event.draw r ld ∈ (penMouseUp st).2) : 0 < ld.points.length := by
  unfold penMouseUp at hmem
  cases hlast : st.lines.getLast? with
  | none => simp [hlast] at hmem
  | some lastStroke =>
      rw [hlast] at hmem
      by_cases hlen : 0 < lastStroke.points.length
      · simp only [if_pos hlen, List.mem_singleton, Event.draw.injEq] at hmem
        rcases hmem with ⟨-, h2⟩
        subst h2
        exact hlen
      · simp [if_neg hlen] at hmem

/-- Witness for C4's amended theorem at the one-point commit. -/
theorem committed_stroke_nonempty_witness :
    Event.draw "room" ⟨[3, 4], "pen", "#000000", 2⟩
        ∈ (penMouseUp (penMouseDown 3 4 "#000000" 2 emptyBoardState)).2
    ∧ 0 < (⟨[3, 4], "pen", "#000000", 2⟩ : LineData).points.length :=
  ⟨by decide, committed_stroke_nonempty (penMouseDown 3 4 "#000000" 2 emptyBoardState)
    "room" ⟨[3, 4], "pen", "#000000", 2⟩ (by decide)⟩

/-- For a nonnegative bound, the `Math.sqrt` distance comparison used by the
source equals the square comparison used in `pointInEraser`. -/
theorem sqrt_le_iff_sq_le (d r : ℝ) (hr : 0 ≤ r) :
    Real.sqrt d ≤ r ↔ d ≤ r ^ 2 := Real.sqrt_le_left hr

/-- The square-free circle test of `shapeErased` agrees with the source's
`sqrt(D) ≤ sqrt(S) + r` comparison whenever `S` and `r` are nonnegative. -/
theorem circle_condition_iff_sqrt (D S r : ℝ) (hS : 0 ≤ S) (hr : 0 ≤ r) :
    (D - S - r ^ 2 ≤ 0 ∨ (D - S - r ^ 2) ^ 2 ≤ 4 * r ^ 2 * S)
      ↔ Real.sqrt D ≤ Real.sqrt S + r := by
  have ht : 0 ≤ Real.sqrt S := Real.sqrt_nonneg S
  have hyn : 0 ≤ Real.sqrt S + r := by positivity
  have hts : Real.sqrt S ^ 2 = S := Real.sq_sqrt hS
  rw [Real.sqrt_le_left hyn]
  have hsq : (Real.sqrt S + r) ^ 2 = S + 2 * r * Real.sqrt S + r ^ 2 := by
    rw [add_sq, hts]; ring
  rw [hsq]
  constructor
  · rintro (h | h)
    · nlinarith [mul_nonneg hr ht]
    · have h2 : (2 * r * Real.sqrt S) ^ 2 = 4 * r ^ 2 * S := by
        rw [mul_pow, mul_pow, hts]; ring
      have habs : D - S - r ^ 2 ≤ 2 * r * Real.sqrt S := by
        calc D - S - r ^ 2 ≤ |D - S - r ^ 2| := le_abs_self _
          _ = Real.sqrt ((D - S - r ^ 2) ^ 2) := (Real.sqrt_sq_eq_abs _).symm
          _ ≤ Real.sqrt ((2 * r * Real.sqrt S) ^ 2) :=
              Real.sqrt_le_sqrt (by rw [h2]; exact h)
          _ = |2 * r * Real.sqrt S| := Real.sqrt_sq_eq_abs _
          _ = 2 * r * Real.sqrt S := abs_of_nonneg (by positivity)
      linarith
  · intro h
    by_cases hA : D - S - r ^ 2 ≤ 0
    · exact Or.inl hA
    · right
      push_neg at hA
      have h1 : D - S - r ^ 2 ≤ 2 * r * Real.sqrt S := by linarith
      have h2 : (D - S - r ^ 2) ^ 2 ≤ (2 * r * Real.sqrt S) ^ 2 :=
        pow_le_pow_left₀ (le_of_lt hA) h1 2
      calc (D - S - r ^ 2) ^ 2 ≤ (2 * r * Real.sqrt S) ^ 2 := h2
        _ = 4 * r ^ 2 * S := by rw [mul_pow, mul_pow, hts]; ring

/-- Removal test for a rectangle following the spec's words: the pointer
falls within the shape's (normalized) axis-aligned bounds expanded by `r` on
all sides, meaningful for any signed width and height. To be compared with
`shapeErased`, which embeds the source's unnormalized interval check. -/
def rectRemovedSpec (x y r : ℚ) (s : ShapeData) : Bool :=
  decide (min s.x (s.x + s.width) - r ≤ x ∧ x ≤ max s.x (s.x + s.width) + r
    ∧ min s.y (s.y + s.height) - r ≤ y ∧ y ≤ max s.y (s.y + s.height) + r)

/-- Counterexample to C6 as stated: a rectangle dragged up-left (width and
height both −10) is not removed by an eraser pass at the center of its drawn
bounds, although the pointer lies within its axis-aligned bounds expanded by
`r = 1`; the source's unnormalized interval check fails for negative sizes. -/
theorem rect_removal_counterexample :
    rectRemovedSpec (-5) (-5) 1 ⟨"rectangle", 0, 0, -10, -10, "rectangle"⟩ = true
    ∧ shapeErased (-5) (-5) 1 ⟨"rectangle", 0, 0, -10, -10, "rectangle"⟩ = false
    ∧ eraseShapes (-5) (-5) 1 [⟨"rectangle", 0, 0, -10, -10, "rectangle"⟩]
        = [⟨"rectangle", 0, 0, -10, -10, "rectangle"⟩] := by
  refine ⟨?_, ?_, ?_⟩ <;> norm_num [rectRemovedSpec, shapeErased, eraseShapes]

/-- C6 (amended): during an eraser pass with nonnegative radius, a rectangle
is removed iff `(x,y)` lies within the unnormalized bounds
`[x−r, x+width+r] × [y−r, y+height+r]` (for negative width/height these can
be unsatisfiable even with the pointer inside the drawn rectangle); a circle
is removed iff the distance from `(x,y)` to its center is at most its radius
`sqrt(width² + height²)` plus `r`; and removal is binary: every surviving
shape is one of the original shapes, unmodified. -/
theorem shape_removal_characterization (x y r : ℚ) (s : ShapeData)
    (ss : List ShapeData) (hr : 0 ≤ r) :
    (s.type = "rectangle" →
      (shapeErased x y r s = true ↔
        (s.x - r ≤ x ∧ x ≤ s.x + s.width + r ∧ s.y - r ≤ y ∧ y ≤ s.y + s.height + r)))
    ∧ (s.type = "circle" →
      (shapeErased x y r s = true ↔
        Real.sqrt (((s.x : ℝ) - (x : ℝ)) ^ 2 + ((s.y : ℝ) - (y : ℝ)) ^ 2)
          ≤ Real.sqrt ((s.width : ℝ) ^ 2 + (s.height : ℝ) ^ 2) + (r : ℝ)))
    ∧ (∀ s' ∈ eraseShapes x y r ss, s' ∈ ss) := by
  refine ⟨?_, ?_, ?_⟩
  · intro ht
    simp [shapeErased, ht]
  · intro ht
    rw [show (shapeErased x y r s = true) ↔
        ((s.x - x) ^ 2 + (s.y - y) ^ 2 - (s.width ^ 2 + s.height ^ 2) - r ^ 2 ≤ 0
          ∨ ((s.x - x) ^ 2 + (s.y - y) ^ 2 - (s.width ^ 2 + s.height ^ 2) - r ^ 2) ^ 2
            ≤ 4 * r ^ 2 * (s.width ^ 2 + s.height ^ 2)) from by
      simp [shapeErased, ht]]
    rw [← circle_condition_iff_sqrt _ _ _ (by positivity) (by exact_mod_cast hr)]
    constructor <;> intro h <;> exact_mod_cast h
  · intro s' h
    exact List.mem_of_mem_filter h

/-- Witness for C6's amended theorem at a concrete circle: center (0,0),
width 3, height 4 (radius 5), eraser at (10,0) with radius 2. -/
theorem shape_removal_characterization_witness :
    (0 : ℚ) ≤ 2
    ∧ (shapeErased 10 0 2 ⟨"circle", 0, 0, 3, 4, "circle"⟩ = true ↔
        Real.sqrt ((((0 : ℚ) : ℝ) - ((10 : ℚ) : ℝ)) ^ 2
            + (((0 : ℚ) : ℝ) - ((0 : ℚ) : ℝ)) ^ 2)
          ≤ Real.sqrt (((3 : ℚ) : ℝ) ^ 2 + ((4 : ℚ) : ℝ) ^ 2) + ((2 : ℚ) : ℝ)) :=
  ⟨by norm_num,
    (shape_removal_characterization 10 0 2 ⟨"circle", 0, 0, 3, 4, "circle"⟩ []
      (by norm_num)).2.1 rfl⟩

/-- The board of the C1 segmentation scenario: a single straight stroke
through (0,0), (10,0), (20,0); viewport scale 4, so the eraser's world
radius `12 / scale` is exactly 3. -/
def c1State : ClientState :=
  { lines := [⟨[0, 0, 10, 0, 20, 0], "pen", "#000000", 2⟩], shapes := [],
    history := [⟨[], []⟩], historyIndex := 0, viewport := ⟨0, 0, 4⟩,
    roomId := "room" }

/-- Counterexample to C1 as stated: erasing at (10,0) with radius 3 on the
stroke [(0,0),(10,0),(20,0)] does not produce two surviving fragments — the
segmenter keeps only whole original points (it never clips at the circle
boundary, so nothing ends near (7,0) or starts near (13,0)), and the two
single-point outside sub-segments are both pruned, leaving zero strokes. -/
theorem eraser_segmentation_counterexample :
    (12 : ℚ) / c1State.viewport.scale = 3
    ∧ (eraseAtPoint 10 0 c1State).1.lines = []
    ∧ ¬ ((eraseAtPoint 10 0 c1State).1.lines.length = 2) := by
  refine ⟨by norm_num [c1State], ?_, ?_⟩ <;>
    norm_num [eraseAtPoint, eraseLine, eraseWalk, pointInEraser, eraseShapes,
      shapeErased, addToHistory, c1State]

/-- C1 (amended): erasing at (10,0) with radius 3 on the stroke
[(0,0),(10,0),(20,0)] marks the pass as changed, but both surviving
sub-segments are the single points (0,0) and (20,0); the minimum-fragment
rule prunes them, so zero fragments of the stroke survive (hence trivially
no surviving fragment contains a point within radius 3 of (10,0)); a
history entry is pushed and a full-snapshot event emitted. -/
theorem eraser_segmentation_amended :
    (12 : ℚ) / c1State.viewport.scale = 3
    ∧ (eraseWalk 10 0 3 [0, 0, 10, 0, 20, 0] false []).1 = [[0, 0], [20, 0]]
    ∧ (eraseAtPoint 10 0 c1State).1.lines = []
    ∧ (eraseAtPoint 10 0 c1State).1.history = [⟨[], []⟩, ⟨[], []⟩]
    ∧ (eraseAtPoint 10 0 c1State).2 = [Event.updateBoard "room" [] []] := by
  refine ⟨by norm_num [c1State], ?_, ?_, ?_, ?_⟩ <;>
    norm_num [eraseAtPoint, eraseLine, eraseWalk, pointInEraser, eraseShapes,
      shapeErased, addToHistory, c1State]

/-- If every point pair of the list lies outside the eraser circle, the walk
reports no change, whatever flag and open segment it starts from. -/
theorem eraseWalk_no_change (x y r : ℚ) :
    ∀ (pts : List ℚ),
      (∀ p ∈ pairUp pts, pointInEraser x y r p.1 p.2 = false) →
      ∀ (wasIn : Bool) (cur : List ℚ), (eraseWalk x y r pts wasIn cur).2 = false
  | [], _, _, _ => by simp [eraseWalk]
  | [px], _, _, _ => by simp [eraseWalk]
  | px :: py :: rest, h, wasIn, cur => by
      have hp : pointInEraser x y r px py = false := h (px, py) (by simp [pairUp])
      have hrest : ∀ p ∈ pairUp rest, pointInEraser x y r p.1 p.2 = false := by
        intro p hp'
        exact h p (by simp [pairUp, hp'])
      have ih := eraseWalk_no_change x y r rest hrest
      rw [eraseWalk]
      simp [hp, ih, apply_ite Prod.snd]

/-- C5: an eraser pass whose contact circle contains no stroke point and
touches no shape is a complete no-op: the state (collections, history,
index) is unchanged and no event is emitted. -/
theorem erase_noop (x y : ℚ) (st : ClientState)
    (hlines : ∀ line ∈ st.lines, ∀ p ∈ pairUp line.points,
        pointInEraser x y (12 / st.viewport.scale) p.1 p.2 = false)
    (hshapes : ∀ s ∈ st.shapes, shapeErased x y (12 / st.viewport.scale) s = false) :
    eraseAtPoint x y st = (st, []) := by
  have hlc : ∀ line ∈ st.lines, (eraseLine x y (12 / st.viewport.scale) line).2 = false := by
    intro line hl
    unfold eraseLine
    split
    · rfl
    · exact eraseWalk_no_change x y _ line.points (hlines line hl) false []
  have h1 : (st.lines.map (eraseLine x y (12 / st.viewport.scale))).any Prod.snd = false := by
    rw [List.any_eq_false]
    intro p hp
    rw [List.mem_map] at hp
    rcases hp with ⟨line, hl, rfl⟩
    simp [hlc line hl]
  have h2 : st.shapes.any (shapeErased x y (12 / st.viewport.scale)) = false := by
    rw [List.any_eq_false]
    intro s hs
    simp [hshapes s hs]
  simp only [eraseAtPoint]
  rw [h1, h2]
  simp

/-- The board of the C5 no-op scenario: one far-away stroke and one far-away
rectangle; the eraser acts at the origin with world radius 12. -/
def c5State : ClientState :=
  { lines := [⟨[100, 100, 200, 200], "pen", "#000000", 2⟩],
    shapes := [⟨"rectangle", 500, 500, 10, 10, "rectangle"⟩],
    history := [⟨[], []⟩], historyIndex := 0, viewport := ⟨0, 0, 1⟩,
    roomId := "room" }

/-- Witness for C5 at the concrete far-away board. -/
theorem erase_noop_witness :
    (∀ line ∈ c5State.lines, ∀ p ∈ pairUp line.points,
        pointInEraser 0 0 (12 / c5State.viewport.scale) p.1 p.2 = false)
    ∧ (∀ s ∈ c5State.shapes, shapeErased 0 0 (12 / c5State.viewport.scale) s = false)
    ∧ eraseAtPoint 0 0 c5State = (c5State, []) :=
  ⟨by
    norm_num [c5State, pairUp, pointInEraser, List.forall_mem_cons]
    rintro a b (⟨rfl, rfl⟩ | ⟨rfl, rfl⟩) <;> norm_num,
   by norm_num [c5State, shapeErased, List.forall_mem_cons],
   erase_noop 0 0 c5State
     (by
       norm_num [c5State, pairUp, pointInEraser, List.forall_mem_cons]
       rintro a b (⟨rfl, rfl⟩ | ⟨rfl, rfl⟩) <;> norm_num)
     (by norm_num [c5State, shapeErased, List.forall_mem_cons])⟩

/-- C9: every fragment a pass emits copies its source stroke's tool, color
and line width; when the stroke is long enough to be segmented at all, every
surviving fragment has at least 4 numbers (2 points); and erasing both
points of a 2-point stroke yields zero surviving fragments. -/
theorem eraser_fragment_pruning (x y r : ℚ) (line : LineData) :
    (∀ frag ∈ (eraseLine x y r line).1,
        frag.tool = line.tool ∧ frag.color = line.color
          ∧ frag.lineWidth = line.lineWidth)
    ∧ (4 ≤ line.points.length →
        ∀ frag ∈ (eraseLine x y r line).1, 4 ≤ frag.points.length)
    ∧ (∀ a b c d : ℚ, pointInEraser x y r a b = true →
        pointInEraser x y r c d = true →
        (eraseLine x y r ⟨[a, b, c, d], line.tool, line.color, line.lineWidth⟩).1
          = []) := by
  refine ⟨?_, ?_, ?_⟩
  · intro frag hf
    unfold eraseLine at hf
    split at hf
    · rw [List.mem_singleton] at hf
      subst hf
      exact ⟨rfl, rfl, rfl⟩
    · simp only [List.mem_map] at hf
      rcases hf with ⟨s, -, rfl⟩
      exact ⟨rfl, rfl, rfl⟩
  · intro hlen frag hf
    unfold eraseLine at hf
    split at hf
    · omega
    · simp only [List.mem_map, List.mem_filter] at hf
      rcases hf with ⟨s, ⟨-, hs⟩, rfl⟩
      simpa using hs
  · intro a b c d h1 h2
    simp [eraseLine, eraseWalk, h1, h2]

/-- Witness for C9 at a 2-point stroke with both points inside radius 5. -/
theorem eraser_fragment_pruning_witness :
    pointInEraser 0 0 5 0 0 = true ∧ pointInEraser 0 0 5 3 0 = true
    ∧ (eraseLine 0 0 5 ⟨[0, 0, 3, 0], "pen", "#000000", 2⟩).1 = [] :=
  ⟨by norm_num [pointInEraser], by norm_num [pointInEraser],
    (eraser_fragment_pruning 0 0 5 ⟨[], "pen", "#000000", 2⟩).2.2 0 0 3 0
      (by norm_num [pointInEraser]) (by norm_num [pointInEraser])⟩

end Whiteboard
